import Mathlib

/-!
# Verification of the HardCard Smart GitHub Upload Manager core

A shallow embedding of the Chunked Upload Session Engine of
`src/smart-upload-manager.py`: the chunk planner (`create_smart_chunks`),
the upload scheduler (`upload_chunk_to_github`, `parallel_upload`,
`resume_upload`), the session store (`save_session`, `load_session`) and
the progress aggregator (`get_session_status`).

Files are modelled as a size together with a byte-content function
`Nat → Nat`; `f.read(k)` at position `pos` returns the bytes
`[pos, min (pos+k) size)`, exactly Python's semantics of reading `k`
bytes with truncation at end of file.  The SHA-256 hex digest is
modelled by an injective rendering of the digested bytes
(`sha256_hexdigest`); the development only ever compares digests of
byte ranges, never inverts them.  Machine floats that the source passes
through JSON are modelled as rationals.
-/

namespace SmartUpload

/-- Network speed classification, the keys of `SmartUploadManager.CHUNK_SIZES`
(src/smart-upload-manager.py lines 72-77). -/
inductive NetworkSpeed where
  | slow
  | medium
  | fast
  | ultra
deriving DecidableEq, Repr

/-- `SmartUploadManager.CHUNK_SIZES` (lines 72-77): base chunk size in bytes
per network speed: 1/5/10/25 MiB. -/
def CHUNK_SIZES : NetworkSpeed → Nat
  | .slow => 1 * 1024 * 1024
  | .medium => 5 * 1024 * 1024
  | .fast => 10 * 1024 * 1024
  | .ultra => 25 * 1024 * 1024

/-- A source file: its size in bytes and its content, byte `content i` at
offset `i` (only offsets `< size` are ever read). -/
structure SourceFile where
  size : Nat
  content : Nat → Nat

/-- Number of bytes `f.read(len)` returns when the file position is `pos`:
`len`, truncated at end of file (Python file-read semantics). -/
def readLen (f : SourceFile) (pos len : Nat) : Nat :=
  min len (f.size - pos)

/-- The bytes `f.read(len)` returns when the file position is `pos`. -/
def readAt (f : SourceFile) (pos len : Nat) : List Nat :=
  (List.range (readLen f pos len)).map (fun j => f.content (pos + j))

/-- Model of `hashlib.sha256(chunk_data).hexdigest()`: an injective rendering
of the digested bytes.  Only digest equality is ever used. -/
def sha256_hexdigest (bs : List Nat) : String :=
  (bs.map Nat.repr).foldl (fun a b => a ++ "," ++ b) ""

/-- `ChunkInfo` dataclass (lines 43-54). -/
structure ChunkInfo where
  chunk_id : String
  file_path : String
  chunk_index : Nat
  total_chunks : Nat
  size : Nat
  checksum : String
  uploaded : Bool := false
  upload_time : Option ℚ := none
  retry_count : Nat := 0
deriving DecidableEq, Repr

/-- Timestamps (`datetime` objects) are modelled by a natural number
(e.g. microseconds since the epoch); `isoformat`/`fromisoformat` become a
decimal string coding, defined below. -/
def DateTime : Type := Nat

instance : DecidableEq DateTime := inferInstanceAs (DecidableEq Nat)

/-- `UploadSession` dataclass (lines 56-66). -/
structure UploadSession where
  session_id : String
  repo_name : String
  source_path : String
  total_size : Nat
  chunks : List ChunkInfo
  start_time : DateTime
  completed : Bool := false
  progress_percentage : ℚ := 0
deriving DecidableEq

/-- The chunk size `create_smart_chunks` selects (lines 195-200): the base
size for the network speed, doubled (capped at 50 MiB) for files over
100 MiB. -/
def chunkSizeFor (file_size : Nat) (speed : NetworkSpeed) : Nat :=
  let chunk_size := CHUNK_SIZES speed
  if file_size > 100 * 1024 * 1024 then
    min (chunk_size * 2) (50 * 1024 * 1024)
  else
    chunk_size

/-- `num_chunks = (file_size + chunk_size - 1) // chunk_size` (line 203). -/
def numChunksFor (file_size chunk_size : Nat) : Nat :=
  (file_size + chunk_size - 1) / chunk_size

/-- The read loop of `create_smart_chunks` (lines 205-218): iteration `i`
reads `chunk_size` bytes at the current file position `pos` (sequential
reads advance the position by the number of bytes returned), hashes them,
and records the `ChunkInfo`.  `size` is written as `readLen` — the length
of the bytes read, see `readAt_length`. -/
def chunksGo (session_id name : String) (f : SourceFile) (chunk_size num_chunks : Nat) :
    Nat → Nat → Nat → List ChunkInfo
  | _, _, 0 => []
  | i, pos, fuel + 1 =>
    let chunk : ChunkInfo :=
      { chunk_id := session_id ++ "_" ++ name ++ "_" ++ Nat.repr i
        file_path := name
        chunk_index := i
        total_chunks := num_chunks
        size := readLen f pos chunk_size
        checksum := sha256_hexdigest (readAt f pos chunk_size) }
    chunk :: chunksGo session_id name f chunk_size num_chunks
      (i + 1) (pos + readLen f pos chunk_size) fuel

/-- `SmartUploadManager.create_smart_chunks` (lines 190-220): partitions the
file into `num_chunks` chunks of `chunk_size` bytes (the last one
truncated at end of file).  `name` stands for both `str(file_path)` and
`file_path.name` (the model does not distinguish directory components). -/
def create_smart_chunks (session_id name : String) (f : SourceFile)
    (speed : NetworkSpeed) : List ChunkInfo :=
  let chunk_size := chunkSizeFor f.size speed
  let num_chunks := numChunksFor f.size chunk_size
  chunksGo session_id name f chunk_size num_chunks 0 0 num_chunks

/-- The value of the `i`-th chunk produced by the read loop: offset
`i * cs` (truncated at end of file), `cs` bytes read there. -/
def plannedChunk (sid name : String) (f : SourceFile) (cs nc idx : Nat) :
    ChunkInfo :=
  { chunk_id := sid ++ "_" ++ name ++ "_" ++ Nat.repr idx
    file_path := name
    chunk_index := idx
    total_chunks := nc
    size := readLen f (min (idx * cs) f.size) cs
    checksum := sha256_hexdigest (readAt f (min (idx * cs) f.size) cs) }

/-- A 150 MiB source file (157286400 bytes) whose byte at offset `j` is
modelled as `j` itself. -/
def file150MiB : SourceFile := ⟨157286400, fun j => j⟩

/-- The bytes `upload_chunk_to_github` reads from the source file before
uploading (lines 263-265): it seeks to
`chunk.chunk_index * CHUNK_SIZES[self.network_speed]` — the *base* chunk
size of the current profile — and reads `chunk.size` bytes. -/
def upload_read (f : SourceFile) (speed : NetworkSpeed) (chunk : ChunkInfo) :
    List Nat :=
  readAt f (chunk.chunk_index * CHUNK_SIZES speed) chunk.size

/-- Chunk index 1 of the 150 MiB file planned with the fast profile (the
default is never taken: the plan has 8 chunks). -/
def chunk1of150 : ChunkInfo :=
  (create_smart_chunks "sess" "big.bin" file150MiB .fast).getD 1
    ⟨"", "", 0, 0, 0, "", false, none, 0⟩

/-! ## Session persistence (`save_session` / `load_session`, lines 370-395)

`save_session` runs `asdict(session)`, replaces `start_time` by its
`isoformat()` string, and `json.dump`s the result to
`.upload_sessions/{session_id}.json`; `load_session` reads that file back,
applies `datetime.fromisoformat` and rebuilds `ChunkInfo(**c)` /
`UploadSession(**d)`.  JSON documents are modelled by an explicit value
tree (`Json`); numbers are rationals (Python's `json` round-trips ints and
finite floats exactly).  The timestamp coding `isoformat` /
`fromisoformat` is modelled as the decimal rendering of the `DateTime`
value, with its inverse — faithful to the source's use of the pair as an
exact round-trip coding. -/

/-- Decimal digits of `n`, least significant first. -/
def toDigitsRev (n : Nat) : List Char :=
  if h : n < 10 then [Char.ofNat (48 + n)]
  else Char.ofNat (48 + n % 10) :: toDigitsRev (n / 10)
termination_by n
decreasing_by exact Nat.div_lt_self (by omega) (by omega)

def charToDigit (c : Char) : Option Nat :=
  if 48 ≤ c.toNat ∧ c.toNat ≤ 57 then some (c.toNat - 48) else none

def digitsGo (acc : Nat) : List Char → Option Nat
  | [] => some acc
  | c :: rest =>
    match charToDigit c with
    | none => none
    | some d => digitsGo (acc * 10 + d) rest

/-- `datetime.isoformat()`, modelled as the decimal rendering of the
timestamp. -/
def isoformat (d : DateTime) : String := ⟨(toDigitsRev d).reverse⟩

/-- `datetime.fromisoformat()`, the inverse parse. -/
def fromisoformat (s : String) : Option DateTime := digitsGo 0 s.data

/-- A JSON document, as written by `json.dump` and read by `json.load`. -/
inductive Json where
  | null
  | bool (b : Bool)
  | num (q : ℚ)
  | str (s : String)
  | arr (xs : List Json)
  | obj (kvs : List (String × Json))

def asNat : Json → Option Nat
  | .num q => if q.den = 1 ∧ 0 ≤ q.num then some q.num.toNat else none
  | _ => none

def asOptQ : Json → Option (Option ℚ)
  | .null => some none
  | .num q => some (some q)
  | _ => none

/-- The dictionary `asdict` produces for a `ChunkInfo` (field order of the
dataclass, lines 43-54). -/
def chunk_to_json (c : ChunkInfo) : Json :=
  .obj [("chunk_id", .str c.chunk_id),
        ("file_path", .str c.file_path),
        ("chunk_index", .num c.chunk_index),
        ("total_chunks", .num c.total_chunks),
        ("size", .num c.size),
        ("checksum", .str c.checksum),
        ("uploaded", .bool c.uploaded),
        ("upload_time", match c.upload_time with
          | none => Json.null
          | some q => Json.num q),
        ("retry_count", .num c.retry_count)]

/-- `ChunkInfo(**c)` applied to a loaded chunk record: parses exactly the
record shape `save_session` writes. -/
def chunk_from_json : Json → Option ChunkInfo
  | .obj [("chunk_id", .str cid),
          ("file_path", .str fp),
          ("chunk_index", ci),
          ("total_chunks", tc),
          ("size", sz),
          ("checksum", .str ck),
          ("uploaded", .bool up),
          ("upload_time", ut),
          ("retry_count", rc)] => do
    let ciN ← asNat ci
    let tcN ← asNat tc
    let szN ← asNat sz
    let utQ ← asOptQ ut
    let rcN ← asNat rc
    some ⟨cid, fp, ciN, tcN, szN, ck, up, utQ, rcN⟩
  | _ => none

/-- The session record `save_session` writes (lines 370-379): `asdict` of
the dataclass with `start_time` replaced by its `isoformat` string. -/
def session_to_json (s : UploadSession) : Json :=
  .obj [("session_id", .str s.session_id),
        ("repo_name", .str s.repo_name),
        ("source_path", .str s.source_path),
        ("total_size", .num s.total_size),
        ("chunks", .arr (s.chunks.map chunk_to_json)),
        ("start_time", .str (isoformat s.start_time)),
        ("completed", .bool s.completed),
        ("progress_percentage", .num s.progress_percentage)]

/-- The list comprehension `[ChunkInfo(**c) for c in session_dict['chunks']]`
(line 393), failing if any element is malformed. -/
def chunks_from_json : List Json → Option (List ChunkInfo)
  | [] => some []
  | j :: rest => do
    let c ← chunk_from_json j
    let cs ← chunks_from_json rest
    some (c :: cs)

/-- The reconstruction `load_session` performs (lines 388-395):
`fromisoformat` on `start_time`, `ChunkInfo(**c)` per chunk, then
`UploadSession(**d)`. -/
def session_from_json : Json → Option UploadSession
  | .obj [("session_id", .str sid),
          ("repo_name", .str rn),
          ("source_path", .str sp),
          ("total_size", ts),
          ("chunks", .arr cs),
          ("start_time", .str st),
          ("completed", .bool cp),
          ("progress_percentage", .num pp)] => do
    let tsN ← asNat ts
    let chunks ← chunks_from_json cs
    let start ← fromisoformat st
    some ⟨sid, rn, sp, tsN, chunks, start, cp, pp⟩
  | _ => none

/-- The durable store: the contents of `.upload_sessions/`, one JSON
document per session identifier. -/
def SessionStore : Type := String → Option Json

/-- `save_session` (lines 370-379): fully overwrites the record stored
under `session.session_id`. -/
def save_session (store : SessionStore) (s : UploadSession) : SessionStore :=
  fun k => if k = s.session_id then some (session_to_json s) else store k

/-- `load_session` (lines 381-395): `none` when no file exists, otherwise
the reconstructed session. -/
def load_session (store : SessionStore) (session_id : String) :
    Option UploadSession :=
  (store session_id).bind session_from_json

/-! ## The upload scheduler (`upload_chunk_to_github`, `parallel_upload`,
`resume_upload`, lines 256-327 and 397-421)

The remote store's response to one `repo.create_file` call is success, a
`RateLimitExceededException` carrying a reset time, or any other
exception; an oracle gives the response per chunk id and attempt number.
`time.time()` is modelled by the parameter `now`.  The per-chunk outcome
and the set of remote calls depend only on the oracle's responses for
that chunk, so for those observations the concurrent run is modelled by
per-chunk sequential processing; admission *timing*, which does depend on
task interleaving, is modelled separately by the small-step scheduler
below. -/

/-- The outcome the scheduler observes from one `repo.create_file` call
(lines 274-298). -/
inductive RemoteResult where
  | success
  | rateLimited (resetAt : ℚ)
  | failure
deriving DecidableEq, Repr

/-- The retry loop of `upload_chunk_to_github` (lines 258-300), from a given
attempt number with `fuel` loop iterations left: on success the chunk is
marked uploaded with the upload time; on a rate-limit signal the task
itself sleeps and the loop moves to the next attempt (`retry_count`
untouched); on any other error `retry_count` is incremented and the loop
retries after backoff.  Returns the mutated chunk, the boolean result
(`False` when the loop exhausts `max_retries`), and the chunk ids of the
remote calls made, one per attempt. -/
def uploadAttempts (oracle : String → Nat → RemoteResult) (now : ℚ) :
    ChunkInfo → Nat → Nat → ChunkInfo × Bool × List String
  | c, _, 0 => (c, false, [])
  | c, attempt, fuel + 1 =>
    match oracle c.chunk_id attempt with
    | .success =>
      ({c with uploaded := true, upload_time := some now}, true, [c.chunk_id])
    | .rateLimited _ =>
      let r := uploadAttempts oracle now c (attempt + 1) fuel
      (r.1, r.2.1, c.chunk_id :: r.2.2)
    | .failure =>
      let r := uploadAttempts oracle now
        {c with retry_count := c.retry_count + 1} (attempt + 1) fuel
      (r.1, r.2.1, c.chunk_id :: r.2.2)

/-- `upload_chunk_to_github` (lines 256-300): the retry loop started at
attempt 0 with `max_retries` iterations. -/
def upload_chunk_to_github (oracle : String → Nat → RemoteResult) (now : ℚ)
    (max_retries : Nat) (c : ChunkInfo) : ChunkInfo × Bool × List String :=
  uploadAttempts oracle now c 0 max_retries

/-- What `parallel_upload` does with one chunk of the session: chunks with
`uploaded == true` are never given a task (line 311) and make no remote
call; pending chunks run the retry loop. -/
def processChunk (oracle : String → Nat → RemoteResult) (now : ℚ)
    (max_retries : Nat) (c : ChunkInfo) : ChunkInfo × List String :=
  if c.uploaded then (c, [])
  else
    let r := upload_chunk_to_github oracle now max_retries c
    (r.1, r.2.2)

/-- `parallel_upload` (lines 302-327): every pending chunk gets a task; the
per-task loop (lines 320-327) updates `session.progress_percentage` after
each awaited task to `uploadedCount / totalCount * 100` over the whole
chunk list — unless no task was created, in which case the loop body
never runs and the progress field keeps its prior value.  Note the
function contains **no** `save_session` call and never touches
`session.completed`: the store and the completion flag are unchanged by a
run.  Returns the updated session and the chunk ids of all remote calls
made. -/
def parallel_upload (oracle : String → Nat → RemoteResult) (now : ℚ)
    (max_retries : Nat) (session : UploadSession) :
    UploadSession × List String :=
  let results := session.chunks.map (processChunk oracle now max_retries)
  let chunks := results.map Prod.fst
  let calls := (results.map Prod.snd).join
  let pending := session.chunks.filter (fun c => !c.uploaded)
  let progress :=
    if pending.length = 0 then session.progress_percentage
    else ((chunks.filter (fun c => c.uploaded)).length : ℚ) /
      ((chunks.length : ℚ)) * 100
  ({ session with chunks := chunks, progress_percentage := progress }, calls)

/-- `resume_upload` (lines 397-421): loads the session (returning `none`
when it is not found, where the source logs and returns `False`),
re-detects the network speed (which does not enter this oracle-based
outcome model), runs `parallel_upload`, and sets `completed := true` and
returns `true` exactly when every chunk is uploaded afterwards.  The
re-loaded session is *not* saved back. -/
def resume_upload (oracle : String → Nat → RemoteResult) (now : ℚ)
    (max_retries : Nat) (store : SessionStore) (session_id : String) :
    Option (UploadSession × Bool × List String) :=
  match load_session store session_id with
  | none => none
  | some session =>
    let r := parallel_upload oracle now max_retries session
    if r.1.chunks.all (fun c => c.uploaded) then
      some ({ r.1 with completed := true }, true, r.2)
    else
      some (r.1, false, r.2)

/-- A one-chunk session with its single chunk still pending. -/
def sessionC4 : UploadSession :=
  { session_id := "s4", repo_name := "r", source_path := "p", total_size := 3
    chunks := [⟨"s4_f_0", "f", 0, 1, 3, "ck", false, none, 0⟩]
    start_time := (5 : Nat), completed := false, progress_percentage := 0 }

/-- The session store as of plan time: `create_upload_session` saves the
fresh session once (line 366); nothing in `parallel_upload` writes to it. -/
def storeC4 : SessionStore := save_session (fun _ => none) sessionC4

/-- The value `resume_upload` produces on `storeC4` with an
always-successful remote store: the chunk uploaded at time 0, progress
100, the completion flag set. -/
def resumeResultC4 : UploadSession × Bool × List String :=
  ({ session_id := "s4", repo_name := "r", source_path := "p", total_size := 3
     chunks := [⟨"s4_f_0", "f", 0, 1, 3, "ck", true, some 0, 0⟩]
     start_time := (5 : Nat), completed := true, progress_percentage := 100 },
   true, ["s4_f_0"])

/-- A two-chunk session, both chunks pending, as saved at plan time. -/
def sessionC3 : UploadSession :=
  { session_id := "s3", repo_name := "r", source_path := "p", total_size := 6
    chunks := [⟨"s3_f_0", "f", 0, 2, 3, "ck0", false, none, 0⟩,
               ⟨"s3_f_1", "f", 1, 2, 3, "ck1", false, none, 0⟩]
    start_time := (5 : Nat), completed := false, progress_percentage := 0 }

/-- The store after the single save `create_upload_session` performs
(line 366).  `parallel_upload` (lines 302-327) contains no `save_session`
call, so this is also the store after the run. -/
def storeC3 : SessionStore := save_session (fun _ => none) sessionC3

/-! ## The progress aggregator (`get_session_status`, lines 423-457) -/

/-- `str(timedelta(seconds=int(q)))`: rendered opaquely (no claim depends
on the rendering). -/
def timedeltaStr (q : ℚ) : String := isoformat q.floor.toNat

/-- `get_session_status` (lines 423-457): the in-memory registry is
consulted first, then the durable store (`self.sessions.get(session_id)
or self.load_session(session_id)`); an unknown identifier yields the
`error` dictionary, a known one the 12-key status dictionary.  `now`
models `datetime.now()` as seconds; the ETA guards mirror lines
437-442. -/
def get_session_status (sessions : String → Option UploadSession)
    (store : SessionStore) (max_retries : Nat) (now : ℚ)
    (session_id : String) : List (String × Json) :=
  match (sessions session_id).orElse
      (fun _ => load_session store session_id) with
  | none => [("error", Json.str "Session not found")]
  | some session =>
    let uploaded_chunks := (session.chunks.filter (fun c => c.uploaded)).length
    let failed_chunks := (session.chunks.filter
      (fun c => max_retries ≤ c.retry_count)).length
    let elapsed_time : ℚ := now - (Nat.cast session.start_time : ℚ)
    let uploaded_size : ℚ := ((session.chunks.filter (fun c => c.uploaded)).map
      (fun c => (c.size : ℚ))).sum
    let eta_seconds : ℚ :=
      if 0 < uploaded_size ∧ 0 < elapsed_time then
        (if 0 < uploaded_size / elapsed_time then
          ((session.total_size : ℚ) - uploaded_size) /
            (uploaded_size / elapsed_time)
        else 0)
      else 0
    [("session_id", .str session.session_id),
     ("repo_name", .str session.repo_name),
     ("source_path", .str session.source_path),
     ("total_chunks", .num session.chunks.length),
     ("uploaded_chunks", .num uploaded_chunks),
     ("failed_chunks", .num failed_chunks),
     ("progress_percentage", .num session.progress_percentage),
     ("total_size_mb", .num ((session.total_size : ℚ) / (1024 * 1024))),
     ("uploaded_size_mb", .num (uploaded_size / (1024 * 1024))),
     ("elapsed_time", .str (timedeltaStr elapsed_time)),
     ("eta", .str (timedeltaStr eta_seconds)),
     ("completed", .bool session.completed)]

/-- An in-memory registry holding `sessionC4` under the key `w`. -/
def sessionsC10 : String → Option UploadSession :=
  fun k => if k = "w" then some sessionC4 else none

/-! ## Admission timing under rate limits: a small-step model of the
asyncio execution of `parallel_upload` (lines 302-327)

Tasks are created for every pending chunk (line 317); each task first
awaits the semaphore of `max_concurrent` permits (lines 304-308) and then
runs the `upload_chunk_to_github` retry loop.  The
`RateLimitExceededException` handler (lines 286-291) makes *the observing
task itself* sleep until the reset time, while it keeps holding its
semaphore permit; no state shared between tasks records the signal, and
semaphore admission is unaffected by it.  One step of the model is one
event-loop tick: running remote calls resolve (each call takes one tick),
due sleepers wake, then waiting tasks acquire free permits in order.
Chunks are identified by their index in the pending list; the oracle maps
(chunk, attempt) to the outcome of that `create_file` call.  The state
records every admission (chunk, time) and every rate-limit signal
(chunk, resetAt, time observed). -/

/-- Outcome of one remote call, with reset times on the model's clock. -/
inductive StepResult where
  | ok
  | rateLimited (resetAt : Nat)
  | err
deriving DecidableEq, Repr

/-- Where one upload task stands: awaiting the semaphore; holding a permit
with a call in flight at a given attempt; sleeping inside the rate-limit
handler until `resetAt` (permit held, lines 286-291); sleeping in
exponential backoff (permit held, line 298); or done. -/
inductive TaskState where
  | waitingSem
  | running (attempt : Nat)
  | sleepingRL (resetAt : Nat) (attempt : Nat)
  | sleepingBackoff (wakeAt : Nat) (attempt : Nat)
  | finished (ok : Bool)
deriving DecidableEq, Repr

structure SchedState where
  time : Nat
  semFree : Nat
  tasks : List (Nat × TaskState)
  admissions : List (Nat × Nat)
  rlSignals : List (Nat × Nat × Nat)
deriving DecidableEq, Repr

/-- Resolve phase: each in-flight call completes with the oracle's outcome.
Success finishes the task and releases its permit; a rate-limit signal
puts the observing task to sleep until the carried reset time — its
permit is *not* released and nothing else in the state changes; another
error backs off for `2 ^ attempt` ticks, or finishes the task
unsuccessfully (releasing the permit) when attempts are exhausted.
Returns the new task list, the permits released, and the signals
observed. -/
def stepResolve (oracle : Nat → Nat → StepResult) (mr time : Nat) :
    List (Nat × TaskState) →
      List (Nat × TaskState) × Nat × List (Nat × Nat × Nat)
  | [] => ([], 0, [])
  | (idx, st) :: rest =>
    let r := stepResolve oracle mr time rest
    match st with
    | .running a =>
      match oracle idx a with
      | .ok => ((idx, .finished true) :: r.1, r.2.1 + 1, r.2.2)
      | .rateLimited reset =>
        ((idx, .sleepingRL reset a) :: r.1, r.2.1, (idx, reset, time) :: r.2.2)
      | .err =>
        if a + 1 < mr then
          ((idx, .sleepingBackoff (time + 2 ^ a) (a + 1)) :: r.1, r.2.1, r.2.2)
        else ((idx, .finished false) :: r.1, r.2.1 + 1, r.2.2)
    | _ => ((idx, st) :: r.1, r.2.1, r.2.2)

/-- Wake phase: a rate-limit sleeper whose reset time has arrived moves to
its next attempt (or finishes unsuccessfully, releasing its permit, when
the loop is exhausted — the `for` loop consumed the attempt); a backoff
sleeper re-runs when due.  Returns the new task list and permits
released. -/
def stepWake (mr time : Nat) :
    List (Nat × TaskState) → List (Nat × TaskState) × Nat
  | [] => ([], 0)
  | (idx, st) :: rest =>
    let r := stepWake mr time rest
    match st with
    | .sleepingRL reset a =>
      if reset ≤ time then
        (if a + 1 < mr then ((idx, .running (a + 1)) :: r.1, r.2)
         else ((idx, .finished false) :: r.1, r.2 + 1))
      else ((idx, st) :: r.1, r.2)
    | .sleepingBackoff w a =>
      if w ≤ time then ((idx, .running a) :: r.1, r.2)
      else ((idx, st) :: r.1, r.2)
    | _ => ((idx, st) :: r.1, r.2)

/-- Admission phase: tasks awaiting the semaphore acquire free permits in
order — the only condition is permit availability (lines 304-308);
rate-limit state plays no part.  Returns the new task list, the remaining
permits, and the admissions made at this tick. -/
def stepAdmit (time : Nat) :
    Nat → List (Nat × TaskState) →
      List (Nat × TaskState) × Nat × List (Nat × Nat)
  | free, [] => ([], free, [])
  | free, (idx, st) :: rest =>
    match st, free with
    | .waitingSem, f + 1 =>
      let r := stepAdmit time f rest
      ((idx, .running 0) :: r.1, r.2.1, (idx, time) :: r.2.2)
    | _, _ =>
      let r := stepAdmit time free rest
      ((idx, st) :: r.1, r.2.1, r.2.2)

/-- One event-loop tick. -/
def step (oracle : Nat → Nat → StepResult) (mr : Nat) (s : SchedState) :
    SchedState :=
  let r1 := stepResolve oracle mr s.time s.tasks
  let r2 := stepWake mr s.time r1.1
  let free := s.semFree + r1.2.1 + r2.2
  let r3 := stepAdmit s.time free r2.1
  { time := s.time + 1, semFree := r3.2.1, tasks := r3.1
    admissions := s.admissions ++ r3.2.2
    rlSignals := s.rlSignals ++ r1.2.2 }

def runSched (oracle : Nat → Nat → StepResult) (mr : Nat) :
    Nat → SchedState → SchedState
  | 0, s => s
  | n + 1, s => runSched oracle mr n (step oracle mr s)

/-- The state as `parallel_upload` starts: all tasks created and awaiting
the semaphore, all permits free. -/
def initSched (numChunks maxConcurrent : Nat) : SchedState :=
  { time := 0, semFree := maxConcurrent
    tasks := (List.range numChunks).map (fun i => (i, .waitingSem))
    admissions := [], rlSignals := [] }

/-- A remote store for the counterexample run: chunk 0 is rate-limited with
reset time 50, chunk 1 fails transiently once then succeeds, chunk 2
succeeds. -/
def oracleC2 : Nat → Nat → StepResult :=
  fun idx attempt =>
    if idx = 0 then .rateLimited 50
    else if idx = 1 ∧ attempt = 0 then .err
    else .ok

/-- The per-task function the resolve phase applies (the accumulator parts
of `stepResolve` are independent of it). -/
def resolveOne (oracle : Nat → Nat → StepResult) (mr time : Nat) :
    Nat × TaskState → Nat × TaskState
  | (idx, .running a) =>
    match oracle idx a with
    | .ok => (idx, .finished true)
    | .rateLimited reset => (idx, .sleepingRL reset a)
    | .err =>
      if a + 1 < mr then (idx, .sleepingBackoff (time + 2 ^ a) (a + 1))
      else (idx, .finished false)
  | (idx, st) => (idx, st)

/-- The per-task function the wake phase applies. -/
def wakeOne (mr time : Nat) : Nat × TaskState → Nat × TaskState
  | (idx, .sleepingRL reset a) =>
    if reset ≤ time then
      (if a + 1 < mr then (idx, .running (a + 1)) else (idx, .finished false))
    else (idx, .sleepingRL reset a)
  | (idx, .sleepingBackoff w a) =>
    if w ≤ time then (idx, .running a) else (idx, .sleepingBackoff w a)
  | (idx, st) => (idx, st)

/-- A mid-run state: chunk 0 sleeping on the rate-limit signal (reset 50),
chunk 2 awaiting the semaphore, one permit free. -/
def schedW : SchedState :=
  { time := 2, semFree := 1
    tasks := [(0, .sleepingRL 50 0), (2, .waitingSem)]
    admissions := [(0, 0)], rlSignals := [(0, 50, 1)] }

theorem readAt_length (f : SourceFile) (pos len : Nat) :
    (readAt f pos len).length = readLen f pos len := by
  simp [readAt]

theorem chunksGo_length (sid name : String) (f : SourceFile) (cs nc : Nat) :
    ∀ fuel i pos, (chunksGo sid name f cs nc i pos fuel).length = fuel := by
  intro fuel
  induction fuel with
  | zero => intro i pos; rfl
  | succ k ih => intro i pos; simp [chunksGo, ih]

theorem create_smart_chunks_length (sid name : String) (f : SourceFile)
    (speed : NetworkSpeed) :
    (create_smart_chunks sid name f speed).length =
      numChunksFor f.size (chunkSizeFor f.size speed) := by
  simp [create_smart_chunks, chunksGo_length]

theorem CHUNK_SIZES_pos (speed : NetworkSpeed) : 0 < CHUNK_SIZES speed := by
  cases speed <;> decide

theorem chunkSizeFor_pos (file_size : Nat) (speed : NetworkSpeed) :
    0 < chunkSizeFor file_size speed := by
  unfold chunkSizeFor
  have := CHUNK_SIZES_pos speed
  split <;> simp <;> omega

/-- If `idx` is a valid chunk index then its planned byte offset `idx * cs`
lies strictly inside the file. -/
theorem idx_mul_lt_size (fs cs idx : Nat) (hcs : 0 < cs)
    (h : idx < numChunksFor fs cs) : idx * cs < fs := by
  unfold numChunksFor at h
  have h1 : (fs + cs - 1) / cs * cs ≤ fs + cs - 1 := Nat.div_mul_le_self _ _
  have h2 : idx + 1 ≤ (fs + cs - 1) / cs := h
  have h3 : (idx + 1) * cs ≤ (fs + cs - 1) / cs * cs :=
    Nat.mul_le_mul_right _ h2
  have h4 : 1 ≤ (fs + cs - 1) / cs := by omega
  have h5 : cs ≤ fs + cs - 1 := by
    by_contra hc
    push_neg at hc
    have : (fs + cs - 1) / cs = 0 := Nat.div_eq_of_lt hc
    omega
  have h6 : (idx + 1) * cs = idx * cs + cs := by ring
  omega

/-- The whole planned chunk grid covers the file: `numChunks * cs ≥ fs`. -/
theorem size_le_nc_mul (fs cs : Nat) (hcs : 0 < cs) :
    fs ≤ numChunksFor fs cs * cs := by
  unfold numChunksFor
  have h1 := Nat.div_add_mod (fs + cs - 1) cs
  have h2 : (fs + cs - 1) % cs < cs := Nat.mod_lt _ hcs
  have h3 : cs * ((fs + cs - 1) / cs) = (fs + cs - 1) / cs * cs :=
    Nat.mul_comm _ _
  omega

/-- Sequential reads advance the file position from `min (i*cs) size` to
`min ((i+1)*cs) size`. -/
theorem pos_advance (f : SourceFile) (cs i : Nat) :
    min (i * cs) f.size + readLen f (min (i * cs) f.size) cs =
      min ((i + 1) * cs) f.size := by
  unfold readLen
  have h : (i + 1) * cs = i * cs + cs := by ring
  rw [h]
  omega

theorem chunksGo_get (sid name : String) (f : SourceFile) (cs nc : Nat) :
    ∀ fuel i j (h : j < fuel),
      (chunksGo sid name f cs nc i (min (i * cs) f.size) fuel).get
          ⟨j, by rw [chunksGo_length]; exact h⟩ =
        plannedChunk sid name f cs nc (i + j) := by
  intro fuel
  induction fuel with
  | zero => intro i j h; omega
  | succ k ih =>
    intro i j h
    match j with
    | 0 =>
      simp only [chunksGo, List.get]
      rfl
    | j' + 1 =>
      have hrec := ih (i + 1) j' (by omega)
      rw [← pos_advance f cs i] at hrec
      have hidx : i + 1 + j' = i + (j' + 1) := by omega
      rw [hidx] at hrec
      simp only [chunksGo]
      exact hrec

theorem create_smart_chunks_get (sid name : String) (f : SourceFile)
    (speed : NetworkSpeed) (j : Nat)
    (h : j < numChunksFor f.size (chunkSizeFor f.size speed)) :
    (create_smart_chunks sid name f speed).get
        ⟨j, by rw [create_smart_chunks_length]; exact h⟩ =
      plannedChunk sid name f (chunkSizeFor f.size speed)
        (numChunksFor f.size (chunkSizeFor f.size speed)) j := by
  have hg := chunksGo_get sid name f (chunkSizeFor f.size speed)
    (numChunksFor f.size (chunkSizeFor f.size speed))
    (numChunksFor f.size (chunkSizeFor f.size speed)) 0 j h
  simp only [Nat.zero_add] at hg
  simp only [create_smart_chunks]
  have hl : chunksGo sid name f (chunkSizeFor f.size speed)
        (numChunksFor f.size (chunkSizeFor f.size speed)) 0 0
        (numChunksFor f.size (chunkSizeFor f.size speed)) =
      chunksGo sid name f (chunkSizeFor f.size speed)
        (numChunksFor f.size (chunkSizeFor f.size speed)) 0
        (min (0 * chunkSizeFor f.size speed) f.size)
        (numChunksFor f.size (chunkSizeFor f.size speed)) := by
    simp
  rw [List.get_of_eq hl]
  exact hg

theorem create_smart_chunks_map_size (sid name : String) (f : SourceFile)
    (speed : NetworkSpeed) :
    (create_smart_chunks sid name f speed).map (fun c => c.size) =
      (List.range (numChunksFor f.size (chunkSizeFor f.size speed))).map
        (fun j => min (chunkSizeFor f.size speed)
          (f.size - j * chunkSizeFor f.size speed)) := by
  apply List.ext_get
  · simp [create_smart_chunks_length]
  · intro n h1 h2
    simp only [List.get_map, List.get_range]
    have hn : n < numChunksFor f.size (chunkSizeFor f.size speed) := by
      simpa [create_smart_chunks_length] using h1
    rw [create_smart_chunks_get sid name f speed n hn]
    have hlt := idx_mul_lt_size f.size (chunkSizeFor f.size speed) n
      (chunkSizeFor_pos f.size speed) hn
    simp only [plannedChunk, readLen]
    rw [Nat.min_eq_left hlt.le]

theorem list_range_map_sum (g : ℕ → ℕ) (n : ℕ) :
    ((List.range n).map g).sum = ∑ i in Finset.range n, g i := by
  induction n with
  | zero => simp
  | succ k ih => rw [List.range_succ, Finset.sum_range_succ]; simp [ih]

/-- The chunk sizes `min cs (fs - j*cs)` for `j < ⌈fs/cs⌉` sum to `fs`. -/
theorem sum_min_chunk_sizes (fs cs : Nat) (hcs : 0 < cs) :
    ∑ j in Finset.range (numChunksFor fs cs), min cs (fs - j * cs) = fs := by
  have key : ∀ j : Nat, min cs (fs - j * cs) =
      min ((j + 1) * cs) fs - min (j * cs) fs := by
    intro j
    have h : (j + 1) * cs = j * cs + cs := by ring
    rw [h]
    omega
  have hmono : Monotone (fun j : ℕ => min (j * cs) fs) := by
    intro a b hab
    simp only
    exact min_le_min (Nat.mul_le_mul_right cs hab) le_rfl
  calc ∑ j in Finset.range (numChunksFor fs cs), min cs (fs - j * cs)
      = ∑ j in Finset.range (numChunksFor fs cs),
          (min ((j + 1) * cs) fs - min (j * cs) fs) :=
        Finset.sum_congr rfl (fun j _ => key j)
    _ = min (numChunksFor fs cs * cs) fs - min (0 * cs) fs :=
        Finset.sum_range_tsub hmono (numChunksFor fs cs)
    _ = fs := by
        have := size_le_nc_mul fs cs hcs
        omega

/-- C7: for a file of nonzero size the chunk list tiles the file exactly:
indices are `0..n-1` in order, every chunk's `total_chunks` is the list
length, sizes sum to the file size, every non-final chunk has the chosen
chunk size, and every chunk (the last one included) has positive size of at
most the chunk size. -/
theorem C7_tiling_invariant (sid name : String) (f : SourceFile)
    (speed : NetworkSpeed) (h : 0 < f.size) :
    (create_smart_chunks sid name f speed).map (fun c => c.chunk_index) =
        List.range (create_smart_chunks sid name f speed).length
    ∧ (∀ c ∈ create_smart_chunks sid name f speed,
        c.total_chunks = (create_smart_chunks sid name f speed).length)
    ∧ ((create_smart_chunks sid name f speed).map (fun c => c.size)).sum = f.size
    ∧ (∀ j (hj : j < (create_smart_chunks sid name f speed).length),
        (j + 1 < (create_smart_chunks sid name f speed).length →
          ((create_smart_chunks sid name f speed).get ⟨j, hj⟩).size =
            chunkSizeFor f.size speed)
        ∧ 0 < ((create_smart_chunks sid name f speed).get ⟨j, hj⟩).size
        ∧ ((create_smart_chunks sid name f speed).get ⟨j, hj⟩).size ≤
            chunkSizeFor f.size speed) := by
  have hcs := chunkSizeFor_pos f.size speed
  have hlen := create_smart_chunks_length sid name f speed
  refine ⟨?_, ?_, ?_, ?_⟩
  · apply List.ext_get
    · simp [create_smart_chunks_length]
    · intro n h1 h2
      simp only [List.get_map, List.get_range]
      have hn : n < numChunksFor f.size (chunkSizeFor f.size speed) := by
        simpa [create_smart_chunks_length] using h1
      rw [create_smart_chunks_get sid name f speed n hn]
      rfl
  · intro c hc
    obtain ⟨i, rfl⟩ := List.mem_iff_get.mp hc
    have hi : (i : Nat) < numChunksFor f.size (chunkSizeFor f.size speed) := by
      rw [← hlen]; exact i.isLt
    have h2 : (create_smart_chunks sid name f speed).get i =
        plannedChunk sid name f (chunkSizeFor f.size speed)
          (numChunksFor f.size (chunkSizeFor f.size speed)) i :=
      create_smart_chunks_get sid name f speed i hi
    rw [h2]
    simpa [plannedChunk] using hlen.symm
  · rw [create_smart_chunks_map_size, list_range_map_sum]
    exact sum_min_chunk_sizes f.size (chunkSizeFor f.size speed) hcs
  · intro j hj
    have hn : j < numChunksFor f.size (chunkSizeFor f.size speed) := by
      rw [← hlen]; exact hj
    rw [create_smart_chunks_get sid name f speed j hn]
    have hlt := idx_mul_lt_size f.size (chunkSizeFor f.size speed) j hcs hn
    simp only [plannedChunk, readLen]
    rw [Nat.min_eq_left hlt.le]
    refine ⟨?_, ?_, ?_⟩
    · intro hj1
      have hn1 : j + 1 < numChunksFor f.size (chunkSizeFor f.size speed) := by
        rw [← hlen]; exact hj1
      have hlt1 := idx_mul_lt_size f.size (chunkSizeFor f.size speed) (j + 1)
        hcs hn1
      have hr : (j + 1) * chunkSizeFor f.size speed =
          j * chunkSizeFor f.size speed + chunkSizeFor f.size speed := by ring
      rw [hr] at hlt1
      omega
    · omega
    · exact Nat.min_le_left _ _

/-- Witness for C7 at a 7-byte file with the slow profile. -/
theorem C7_tiling_invariant_witness :
    0 < (SourceFile.mk 7 (fun j => j)).size ∧
      ((create_smart_chunks "s" "f.txt" ⟨7, fun j => j⟩ .slow).map
        (fun c => c.size)).sum = (SourceFile.mk 7 (fun j => j)).size :=
  ⟨by decide,
   (C7_tiling_invariant "s" "f.txt" ⟨7, fun j => j⟩ .slow (by decide)).2.2.1⟩

/-- C6 counterexample: planning a zero-size file returns normally with an
empty chunk list — it does not fail.  (`PlanningError` does not occur
anywhere in the source; the only exception `create_smart_chunks` could
raise is the OS error of `stat` itself, and a size-0 file reaches the
chunk loop, which runs zero times.) -/
theorem C6_empty_file_counterexample :
    create_smart_chunks "s" "empty.txt" ⟨0, fun _ => 0⟩ .medium = [] := by
  rfl

/-- C6 amended: planning a file of size 0 yields the empty chunk list (so no
zero-size chunk is ever produced for it), returning normally rather than
failing with a `PlanningError`. -/
theorem C6_empty_file_amended (sid name : String) (content : Nat → Nat)
    (speed : NetworkSpeed) :
    create_smart_chunks sid name ⟨0, content⟩ speed = [] := by
  rw [← List.length_eq_zero, create_smart_chunks_length]
  cases speed <;> norm_num [numChunksFor, chunkSizeFor, CHUNK_SIZES]

/-- C8: the planner's chunk size is the profile's base size (1/5/10/25 MiB
for slow/medium/fast/ultra) for files of at most 100 MiB and
`min (base * 2) (50 MiB)` above, the number of chunks is
`⌈fileSize / chunkSize⌉`, and the 150 MiB / fast example yields 8 chunks:
seven of 20 MiB and a final one of 10 MiB. -/
theorem C8_chunk_sizing :
    (∀ (fs : Nat) (speed : NetworkSpeed), fs ≤ 100 * 1024 * 1024 →
        chunkSizeFor fs speed = CHUNK_SIZES speed)
    ∧ (∀ (fs : Nat) (speed : NetworkSpeed), 100 * 1024 * 1024 < fs →
        chunkSizeFor fs speed = min (CHUNK_SIZES speed * 2) (50 * 1024 * 1024))
    ∧ CHUNK_SIZES .slow = 1 * 1024 * 1024
    ∧ CHUNK_SIZES .medium = 5 * 1024 * 1024
    ∧ CHUNK_SIZES .fast = 10 * 1024 * 1024
    ∧ CHUNK_SIZES .ultra = 25 * 1024 * 1024
    ∧ (∀ (sid name : String) (f : SourceFile) (speed : NetworkSpeed),
        (create_smart_chunks sid name f speed).length =
          (f.size + chunkSizeFor f.size speed - 1) / chunkSizeFor f.size speed)
    ∧ chunkSizeFor file150MiB.size .fast = 20 * 1024 * 1024
    ∧ (create_smart_chunks "s" "big.bin" file150MiB .fast).length = 8
    ∧ (create_smart_chunks "s" "big.bin" file150MiB .fast).map (fun c => c.size) =
        List.replicate 7 (20 * 1024 * 1024) ++ [10 * 1024 * 1024] := by
  refine ⟨?_, ?_, rfl, rfl, rfl, rfl, ?_, by decide, ?_, by decide⟩
  · intro fs speed h
    unfold chunkSizeFor
    rw [if_neg]
    omega
  · intro fs speed h
    unfold chunkSizeFor
    rw [if_pos]
    omega
  · intro sid name f speed
    rw [create_smart_chunks_length]
    rfl
  · rw [create_smart_chunks_length]
    decide

/-- Witness for C8's conditional parts, at a 50 MB file (below the 100 MiB
threshold) and the 150 MiB file (above it), both with the fast profile. -/
theorem C8_chunk_sizing_witness :
    ((50000000 : Nat) ≤ 100 * 1024 * 1024 ∧
      chunkSizeFor 50000000 .fast = CHUNK_SIZES .fast)
    ∧ (100 * 1024 * 1024 < (157286400 : Nat) ∧
      chunkSizeFor 157286400 .fast = min (CHUNK_SIZES .fast * 2) (50 * 1024 * 1024)) :=
  ⟨⟨by decide, C8_chunk_sizing.1 50000000 .fast (by decide)⟩,
   ⟨by decide, C8_chunk_sizing.2.1 157286400 .fast (by decide)⟩⟩

theorem readAt_head (f : SourceFile) (pos len : Nat)
    (h : 0 < readLen f pos len) :
    (readAt f pos len).head? = some (f.content pos) := by
  unfold readAt
  obtain ⟨k, hk⟩ := Nat.exists_eq_succ_of_ne_zero (Nat.pos_iff_ne_zero.mp h)
  rw [hk, List.range_succ_eq_map]
  simp

/-- C1 (code bug): for the 150 MiB file planned with the fast profile, the
planner's adaptive chunk size is 20 MiB, so chunk 1 was read and
checksummed over the 20 MiB starting at planned offset
`1 * chunkSizeFor = 20 MiB`; but `upload_chunk_to_github` seeks to
`chunk_index * CHUNK_SIZES[network_speed] = 10 MiB` — the base, undoubled
profile size — so it uploads a different byte range than the one planned
and checksummed (the two reads differ already at their first byte). -/
theorem C1_upload_reads_range_other_than_planned :
    chunk1of150.checksum = sha256_hexdigest (readAt file150MiB
        (1 * chunkSizeFor file150MiB.size .fast) (chunkSizeFor file150MiB.size .fast))
    ∧ chunk1of150.size = chunkSizeFor file150MiB.size .fast
    ∧ upload_read file150MiB .fast chunk1of150 ≠
        readAt file150MiB (1 * chunkSizeFor file150MiB.size .fast) chunk1of150.size := by
  have hlen1 : 1 < (create_smart_chunks "sess" "big.bin" file150MiB
      .fast).length := by
    rw [create_smart_chunks_length]
    decide
  have hpc : chunk1of150 = plannedChunk "sess" "big.bin" file150MiB
      (chunkSizeFor file150MiB.size .fast)
      (numChunksFor file150MiB.size (chunkSizeFor file150MiB.size .fast)) 1 := by
    have hgd : chunk1of150 = (create_smart_chunks "sess" "big.bin" file150MiB
        .fast).get ⟨1, hlen1⟩ := by
      unfold chunk1of150
      rw [List.getD_eq_get?, List.get?_eq_get hlen1]
      rfl
    rw [hgd]
    exact create_smart_chunks_get "sess" "big.bin" file150MiB .fast 1 (by decide)
  have hmin : min (1 * chunkSizeFor file150MiB.size .fast) file150MiB.size =
      1 * chunkSizeFor file150MiB.size .fast := Nat.min_eq_left (by decide)
  refine ⟨?_, ?_, ?_⟩
  · rw [hpc]
    simp only [plannedChunk]
    rw [hmin]
  · rw [hpc]
    simp only [plannedChunk]
    rw [hmin]
    decide
  · intro heq
    have h1 : (upload_read file150MiB .fast chunk1of150).head? =
        some (file150MiB.content (chunk1of150.chunk_index * CHUNK_SIZES .fast)) := by
      apply readAt_head
      rw [hpc]
      decide
    have h2 : (readAt file150MiB (1 * chunkSizeFor file150MiB.size .fast)
        chunk1of150.size).head? =
        some (file150MiB.content (1 * chunkSizeFor file150MiB.size .fast)) := by
      apply readAt_head
      rw [hpc]
      decide
    rw [heq, h2] at h1
    rw [hpc] at h1
    exact absurd h1 (by decide)

theorem charToDigit_ofNat (d : Nat) (h : d < 10) :
    charToDigit (Char.ofNat (48 + d)) = some d := by
  interval_cases d <;> decide

theorem digitsGo_append (acc : Nat) (l1 l2 : List Char) :
    digitsGo acc (l1 ++ l2) =
      match digitsGo acc l1 with
      | none => none
      | some m => digitsGo m l2 := by
  induction l1 generalizing acc with
  | nil => simp [digitsGo]
  | cons c rest ih =>
    simp only [List.cons_append, digitsGo]
    cases charToDigit c with
    | none => rfl
    | some d => exact ih _

theorem digitsGo_toDigitsRev (n : Nat) : ∀ acc : Nat,
    digitsGo acc (toDigitsRev n).reverse =
      some (acc * 10 ^ (toDigitsRev n).length + n) := by
  induction n using Nat.strong_induction_on with
  | _ n ih =>
    intro acc
    by_cases h : n < 10
    · rw [toDigitsRev]
      simp only [h, dite_true]
      simp [digitsGo, charToDigit_ofNat n h]
    · rw [toDigitsRev]
      simp only [h, dite_false]
      simp only [List.reverse_cons, List.length_cons]
      rw [digitsGo_append]
      have hrec := ih (n / 10) (Nat.div_lt_self (by omega) (by omega)) acc
      rw [hrec]
      simp only [digitsGo, charToDigit_ofNat (n % 10) (Nat.mod_lt _ (by omega))]
      congr 1
      have : n = 10 * (n / 10) + n % 10 := (Nat.div_add_mod n 10).symm
      ring_nf
      omega

theorem fromisoformat_isoformat (d : DateTime) :
    fromisoformat (isoformat d) = some d := by
  show digitsGo 0 (String.mk (toDigitsRev d).reverse).data = some d
  simpa using digitsGo_toDigitsRev d 0

theorem asNat_natCast (n : Nat) : asNat (.num (n : ℚ)) = some n := by
  simp [asNat]

theorem asOptQ_encode (t : Option ℚ) :
    asOptQ (match t with | none => Json.null | some q => Json.num q) = some t := by
  cases t <;> rfl

theorem chunk_from_to_json (c : ChunkInfo) :
    chunk_from_json (chunk_to_json c) = some c := by
  simp [chunk_to_json, chunk_from_json, asNat_natCast, asOptQ_encode]

theorem chunks_from_to_json (l : List ChunkInfo) :
    chunks_from_json (l.map chunk_to_json) = some l := by
  induction l with
  | nil => rfl
  | cons c rest ih =>
    simp [chunks_from_json, chunk_from_to_json c, ih]

theorem session_from_to_json (s : UploadSession) :
    session_from_json (session_to_json s) = some s := by
  simp [session_to_json, session_from_json, asNat_natCast,
    chunks_from_to_json, fromisoformat_isoformat]

/-- C9: saving a session and loading it back by its identifier reproduces
every field exactly — identity, target, source path, size, start time,
completion flag, progress, and the chunk list in order with all per-chunk
fields. -/
theorem C9_save_load_roundtrip (store : SessionStore) (s : UploadSession) :
    load_session (save_session store s) s.session_id = some s := by
  simp [load_session, save_session, session_from_to_json]

theorem parallel_upload_completed (oracle : String → Nat → RemoteResult)
    (now : ℚ) (mr : Nat) (session : UploadSession) :
    (parallel_upload oracle now mr session).1.completed = session.completed :=
  rfl

theorem parallel_upload_chunks (oracle : String → Nat → RemoteResult)
    (now : ℚ) (mr : Nat) (session : UploadSession) :
    (parallel_upload oracle now mr session).1.chunks =
      session.chunks.map (fun c => (processChunk oracle now mr c).1) := by
  simp [parallel_upload]

theorem parallel_upload_calls (oracle : String → Nat → RemoteResult)
    (now : ℚ) (mr : Nat) (session : UploadSession) :
    (parallel_upload oracle now mr session).2 =
      ((session.chunks.map (processChunk oracle now mr)).map Prod.snd).join := by
  simp [parallel_upload]

theorem parallel_upload_progress_100 (oracle : String → Nat → RemoteResult)
    (now : ℚ) (mr : Nat) (session : UploadSession)
    (hpend : (session.chunks.any (fun c => !c.uploaded)) = true)
    (hall : ((parallel_upload oracle now mr session).1.chunks.all
      (fun c => c.uploaded)) = true) :
    (parallel_upload oracle now mr session).1.progress_percentage = 100 := by
  have hne : session.chunks ≠ [] := by
    intro h
    rw [h] at hpend
    simp at hpend
  have hfil : (session.chunks.filter (fun c => !c.uploaded)).length ≠ 0 := by
    intro h0
    rw [List.length_eq_zero, List.filter_eq_nil] at h0
    rw [List.any_eq_true] at hpend
    obtain ⟨c, hc, hcp⟩ := hpend
    exact absurd hcp (by simpa using h0 c hc)
  rw [parallel_upload_chunks] at hall
  rw [List.all_eq_true] at hall
  simp only [parallel_upload, List.map_map]
  rw [if_neg hfil]
  have hcomp : (List.map (Prod.fst ∘ processChunk oracle now mr) session.chunks) =
      session.chunks.map (fun c => (processChunk oracle now mr c).1) := by
    simp [Function.comp]
  rw [hcomp]
  rw [List.filter_eq_self.mpr (fun c hc => hall c hc)]
  have hnz : (((session.chunks.map
      (fun c => (processChunk oracle now mr c).1)).length : ℚ)) ≠ 0 := by
    simp only [List.length_map]
    have : session.chunks.length ≠ 0 := fun h0 => hne (List.length_eq_zero.mp h0)
    exact_mod_cast this
  rw [div_self hnz, one_mul]

theorem resume_upload_completed_iff (oracle : String → Nat → RemoteResult)
    (now : ℚ) (mr : Nat) (store : SessionStore) (sid : String)
    (s : UploadSession) (r : UploadSession × Bool × List String)
    (hload : load_session store sid = some s) (hcomp : s.completed = false)
    (hres : resume_upload oracle now mr store sid = some r) :
    (r.1.completed = true ↔ (r.1.chunks.all (fun c => c.uploaded)) = true) := by
  unfold resume_upload at hres
  rw [hload] at hres
  dsimp only at hres
  by_cases hall : ((parallel_upload oracle now mr s).1.chunks.all
      (fun c => c.uploaded)) = true
  · rw [if_pos hall] at hres
    obtain rfl := Option.some_injective _ hres.symm
    constructor
    · intro _
      simpa using hall
    · intro _
      rfl
  · rw [if_neg hall] at hres
    obtain rfl := Option.some_injective _ hres.symm
    constructor
    · intro hc
      rw [parallel_upload_completed] at hc
      rw [hcomp] at hc
      exact absurd hc (by simp)
    · intro h
      exact absurd h hall

theorem uploadAttempts_calls_eq (oracle : String → Nat → RemoteResult)
    (now : ℚ) : ∀ (fuel : Nat) (c : ChunkInfo) (attempt : Nat),
      ∀ id ∈ (uploadAttempts oracle now c attempt fuel).2.2,
        id = c.chunk_id := by
  intro fuel
  induction fuel with
  | zero => intro c attempt id h; simp [uploadAttempts] at h
  | succ k ih =>
    intro c attempt id h
    rw [uploadAttempts] at h
    cases horacle : oracle c.chunk_id attempt with
    | success => rw [horacle] at h; simpa using h
    | rateLimited resetAt =>
      rw [horacle] at h
      simp only [List.mem_cons] at h
      rcases h with h | h
      · exact h
      · exact ih c (attempt + 1) id h
    | failure =>
      rw [horacle] at h
      simp only [List.mem_cons] at h
      rcases h with h | h
      · exact h
      · exact ih {c with retry_count := c.retry_count + 1} (attempt + 1) id h

theorem uploadAttempts_calls_nonempty (oracle : String → Nat → RemoteResult)
    (now : ℚ) (c : ChunkInfo) (attempt fuel : Nat) (h : 0 < fuel) :
    (uploadAttempts oracle now c attempt fuel).2.2 ≠ [] := by
  match fuel, h with
  | k + 1, _ =>
    rw [uploadAttempts]
    cases oracle c.chunk_id attempt <;> simp

/-- C5: re-running the scheduler on a session with `M` uploaded and `N - M`
pending chunks: the chunk list keeps its length; every already-uploaded
chunk is returned bit-for-bit unchanged at its position; every remote
call made is for a pending chunk; every pending chunk receives at least
one remote call; and (for sessions with distinct chunk ids, as the
planner produces) no remote call is made for any already-uploaded
chunk. -/
theorem C5_resume_frame (oracle : String → Nat → RemoteResult) (now : ℚ)
    (mr : Nat) (session : UploadSession) (hmr : 0 < mr) :
    ((parallel_upload oracle now mr session).1.chunks.length =
        session.chunks.length)
    ∧ (∀ (i : Nat) (h1 : i < session.chunks.length)
        (h2 : i < (parallel_upload oracle now mr session).1.chunks.length),
        (session.chunks.get ⟨i, h1⟩).uploaded = true →
        (parallel_upload oracle now mr session).1.chunks.get ⟨i, h2⟩ =
          session.chunks.get ⟨i, h1⟩)
    ∧ (∀ id ∈ (parallel_upload oracle now mr session).2,
        id ∈ (session.chunks.filter (fun c => !c.uploaded)).map
          (fun c => c.chunk_id))
    ∧ (∀ c ∈ session.chunks, c.uploaded = false →
        c.chunk_id ∈ (parallel_upload oracle now mr session).2)
    ∧ ((session.chunks.map (fun c => c.chunk_id)).Nodup →
        ∀ id ∈ (parallel_upload oracle now mr session).2,
        id ∉ (session.chunks.filter (fun c => c.uploaded)).map
          (fun c => c.chunk_id)) := by
  have hkey : ∀ id ∈ (parallel_upload oracle now mr session).2,
      ∃ c ∈ session.chunks, c.uploaded = false ∧ id = c.chunk_id := by
    intro id hid
    rw [parallel_upload_calls, List.map_map] at hid
    obtain ⟨l', hl', hidl⟩ := List.mem_join.mp hid
    obtain ⟨c, hc, rfl⟩ := List.mem_map.mp hl'
    simp only [Function.comp] at hidl
    by_cases hup : c.uploaded
    · simp [processChunk, hup] at hidl
    · refine ⟨c, hc, by simpa using hup, ?_⟩
      simp only [processChunk, hup, if_neg, Bool.false_eq_true, ite_false] at hidl
      exact uploadAttempts_calls_eq oracle now mr c 0 id hidl
  refine ⟨?_, ?_, ?_, ?_, ?_⟩
  · simp [parallel_upload_chunks]
  · intro i h1 h2 hup
    rw [List.get_of_eq (parallel_upload_chunks oracle now mr session) ⟨i, h2⟩]
    rw [List.get_map]
    have hup' : session.chunks[i].uploaded = true := hup
    simp [processChunk, hup']
  · intro id hid
    obtain ⟨c, hc, hup, rfl⟩ := hkey id hid
    exact List.mem_map.mpr ⟨c, List.mem_filter.mpr ⟨hc, by simp [hup]⟩, rfl⟩
  · intro c hc hup
    rw [parallel_upload_calls, List.map_map]
    apply List.mem_join.mpr
    refine ⟨(Prod.snd ∘ processChunk oracle now mr) c,
      List.mem_map_of_mem _ hc, ?_⟩
    simp only [Function.comp, processChunk, hup, Bool.false_eq_true, ite_false]
    have h1 : (uploadAttempts oracle now c 0 mr).2.2 ≠ [] :=
      uploadAttempts_calls_nonempty oracle now c 0 mr hmr
    obtain ⟨x, hxmem⟩ := List.exists_mem_of_ne_nil _ h1
    have hx := uploadAttempts_calls_eq oracle now mr c 0 x hxmem
    rw [← hx]
    exact hxmem
  · intro hnd id hid hmem2
    obtain ⟨c1, hc1, hup1, rfl⟩ := hkey id hid
    obtain ⟨c2, hc2m, hc2id⟩ := List.mem_map.mp hmem2
    have hc2 := List.mem_filter.mp hc2m
    have heq : c2 = c1 :=
      List.inj_on_of_nodup_map hnd hc2.1 hc1 hc2id
    rw [heq] at hc2
    rw [hup1] at hc2
    simp at hc2

/-- Witness for C5 at `sessionC4` with an always-successful remote store. -/
theorem C5_resume_frame_witness :
    0 < 3 ∧ (parallel_upload (fun _ _ => RemoteResult.success) 0 3
        sessionC4).1.chunks.length = sessionC4.chunks.length :=
  ⟨by decide,
   (C5_resume_frame (fun _ _ => RemoteResult.success) 0 3 sessionC4
      (by decide)).1⟩

/-- C4 counterexample: running the scheduler (`parallel_upload`) on
`sessionC4` with an always-successful remote store ends with every chunk
uploaded and `progress_percentage = 100`, yet `completed` is still
`false` — `parallel_upload` never sets the completion flag (only
`resume_upload` does, lines 416-417), so the claimed biconditional fails
after a direct scheduler run. -/
theorem C4_completed_counterexample :
    ((parallel_upload (fun _ _ => RemoteResult.success) 0 3
        sessionC4).1.chunks.all (fun c => c.uploaded)) = true
    ∧ (parallel_upload (fun _ _ => RemoteResult.success) 0 3
        sessionC4).1.progress_percentage = 100
    ∧ (parallel_upload (fun _ _ => RemoteResult.success) 0 3
        sessionC4).1.completed = false := by
  refine ⟨by decide, ?_, by decide⟩
  norm_num [parallel_upload, processChunk, upload_chunk_to_github,
    uploadAttempts, sessionC4]

/-- C4 (amended): a `parallel_upload` run never changes `completed`; when at
least one chunk was pending and every chunk ends uploaded, the run sets
`progress_percentage` to 100; and the completion flag is managed only by
`resume_upload`, where — for a stored session whose flag was `false` —
`completed = true` after the run exactly when every chunk is uploaded. -/
theorem C4_completion_amended :
    (∀ (oracle : String → Nat → RemoteResult) (now : ℚ) (mr : Nat)
        (session : UploadSession),
      (parallel_upload oracle now mr session).1.completed = session.completed)
    ∧ (∀ (oracle : String → Nat → RemoteResult) (now : ℚ) (mr : Nat)
        (session : UploadSession),
        (session.chunks.any (fun c => !c.uploaded)) = true →
        ((parallel_upload oracle now mr session).1.chunks.all
          (fun c => c.uploaded)) = true →
        (parallel_upload oracle now mr session).1.progress_percentage = 100)
    ∧ (∀ (oracle : String → Nat → RemoteResult) (now : ℚ) (mr : Nat)
        (store : SessionStore) (sid : String) (s : UploadSession)
        (r : UploadSession × Bool × List String),
        load_session store sid = some s → s.completed = false →
        resume_upload oracle now mr store sid = some r →
        (r.1.completed = true ↔ (r.1.chunks.all (fun c => c.uploaded)) = true)) :=
  ⟨parallel_upload_completed, parallel_upload_progress_100,
   resume_upload_completed_iff⟩

theorem loadC4 : load_session storeC4 "s4" = some sessionC4 := by
  show load_session (save_session (fun _ => none) sessionC4) "s4" =
    some sessionC4
  simp [load_session, save_session, sessionC4, session_from_to_json]

theorem resumeC4 :
    resume_upload (fun _ _ => RemoteResult.success) 0 3 storeC4 "s4" =
      some resumeResultC4 := by
  unfold resume_upload
  rw [loadC4]
  dsimp only
  rw [if_pos (by decide)]
  norm_num [parallel_upload, processChunk, upload_chunk_to_github,
    uploadAttempts, sessionC4, resumeResultC4]

/-- Witness for C4 (amended): the progress part at `sessionC4` (one pending
chunk, all uploads succeed), and the resume part on the stored copy of the
same session. -/
theorem C4_completion_amended_witness :
    ((sessionC4.chunks.any (fun c => !c.uploaded)) = true
      ∧ (parallel_upload (fun _ _ => RemoteResult.success) 0 3
          sessionC4).1.progress_percentage = 100)
    ∧ (load_session storeC4 "s4" = some sessionC4
      ∧ sessionC4.completed = false
      ∧ resume_upload (fun _ _ => RemoteResult.success) 0 3 storeC4 "s4" =
          some resumeResultC4
      ∧ (resumeResultC4.1.completed = true ↔
          (resumeResultC4.1.chunks.all (fun c => c.uploaded)) = true)) :=
  ⟨⟨by decide,
    C4_completion_amended.2.1 (fun _ _ => RemoteResult.success) 0 3 sessionC4
      (by decide) (by decide)⟩,
   ⟨loadC4, rfl, resumeC4,
    C4_completion_amended.2.2 (fun _ _ => RemoteResult.success) 0 3 storeC4
      "s4" sessionC4 resumeResultC4 loadC4 rfl resumeC4⟩⟩

/-- C3 (code bug): the scheduler does update `session.progress_percentage`
after chunk transitions, but it never invokes `save_session` during a run
— the only save happens at session creation (line 366).  Concretely:
running `parallel_upload` on `sessionC3` with an always-successful remote
store completes both chunk transitions in memory (2 uploaded, progress
100), while the durable record — unchanged since plan time because the
run performs no store write — still shows 0 uploaded chunks.  Durable
state is therefore two completed transitions behind, not at most one
in-flight chunk. -/
theorem C3_no_save_during_run :
    ((parallel_upload (fun _ _ => RemoteResult.success) 0 3
        sessionC3).1.chunks.filter (fun c => c.uploaded)).length = 2
    ∧ (parallel_upload (fun _ _ => RemoteResult.success) 0 3
        sessionC3).1.progress_percentage = 100
    ∧ load_session storeC3 "s3" = some sessionC3
    ∧ (sessionC3.chunks.filter (fun c => c.uploaded)).length = 0 := by
  refine ⟨by decide, ?_, ?_, by decide⟩
  · norm_num [parallel_upload, processChunk, upload_chunk_to_github,
      uploadAttempts, sessionC3]
  · show load_session (save_session (fun _ => none) sessionC3) "s3" =
      some sessionC3
    simp [load_session, save_session, sessionC3, session_from_to_json]

/-- C10: for a session identifier in neither the in-memory registry nor the
durable store, `get_session_status` returns the dictionary
`{'error': 'Session not found'}` (no exception — the model is total); for
any identifier it does resolve, the returned status record carries no
`error` key. -/
theorem C10_session_status_error (sessions : String → Option UploadSession)
    (store : SessionStore) (max_retries : Nat) (now : ℚ) (sid : String) :
    (sessions sid = none → load_session store sid = none →
      get_session_status sessions store max_retries now sid =
        [("error", Json.str "Session not found")])
    ∧ (∀ s, (sessions sid).orElse (fun _ => load_session store sid) = some s →
        ∀ kv ∈ get_session_status sessions store max_retries now sid,
          kv.1 ≠ "error") := by
  constructor
  · intro h1 h2
    unfold get_session_status
    rw [h1]
    simp [Option.orElse, h2]
  · intro s hs kv hkv
    unfold get_session_status at hkv
    rw [hs] at hkv
    dsimp only at hkv
    simp only [List.mem_cons, List.not_mem_nil, or_false] at hkv
    rcases hkv with h|h|h|h|h|h|h|h|h|h|h|h <;> subst h <;> simp

/-- Witness for C10: an identifier known to nobody yields the error
dictionary; a registered session yields a record none of whose keys is
`error`. -/
theorem C10_session_status_error_witness :
    (((fun _ => none) : String → Option UploadSession) "x" = none
      ∧ load_session (fun _ => none) "x" = none
      ∧ get_session_status (fun _ => none) (fun _ => none) 3 0 "x" =
          [("error", Json.str "Session not found")])
    ∧ ((sessionsC10 "w").orElse (fun _ => load_session (fun _ => none) "w") =
          some sessionC4
      ∧ (get_session_status sessionsC10 (fun _ => none) 3 0 "w").all
          (fun kv => kv.1 != "error") = true) := by
  constructor
  · exact ⟨rfl, rfl,
      (C10_session_status_error (fun _ => none) (fun _ => none) 3 0 "x").1
        rfl rfl⟩
  · constructor
    · rfl
    · apply List.all_eq_true.mpr
      intro kv hkv
      have hne := (C10_session_status_error sessionsC10 (fun _ => none)
        3 0 "w").2 sessionC4 rfl kv hkv
      simpa [bne_iff_ne] using hne

theorem stepResolve_fst (oracle : Nat → Nat → StepResult) (mr time : Nat) :
    ∀ l, (stepResolve oracle mr time l).1 =
      l.map (resolveOne oracle mr time) := by
  intro l
  induction l with
  | nil => rfl
  | cons hd rest ih =>
    obtain ⟨idx, st⟩ := hd
    cases st with
    | running a =>
      cases horc : oracle idx a with
      | ok => simp [stepResolve, resolveOne, ih, horc]
      | rateLimited reset => simp [stepResolve, resolveOne, ih, horc]
      | err =>
        by_cases hlt : a + 1 < mr <;>
          simp [stepResolve, resolveOne, ih, horc, hlt]
    | waitingSem => simp [stepResolve, resolveOne, ih]
    | sleepingRL r a => simp [stepResolve, resolveOne, ih]
    | sleepingBackoff w a => simp [stepResolve, resolveOne, ih]
    | finished ok => simp [stepResolve, resolveOne, ih]

theorem stepWake_fst (mr time : Nat) :
    ∀ l, (stepWake mr time l).1 = l.map (wakeOne mr time) := by
  intro l
  induction l with
  | nil => rfl
  | cons hd rest ih =>
    obtain ⟨idx, st⟩ := hd
    cases st with
    | sleepingRL r a =>
      by_cases hr : r ≤ time
      · by_cases hlt : a + 1 < mr <;> simp [stepWake, wakeOne, ih, hr, hlt]
      · simp [stepWake, wakeOne, ih, hr]
    | sleepingBackoff w a =>
      by_cases hw : w ≤ time <;> simp [stepWake, wakeOne, ih, hw]
    | waitingSem => simp [stepWake, wakeOne, ih]
    | running a => simp [stepWake, wakeOne, ih]
    | finished ok => simp [stepWake, wakeOne, ih]

theorem stepAdmit_preserves (time : Nat) (p : Nat × TaskState)
    (hp : p.2 ≠ TaskState.waitingSem) :
    ∀ (free : Nat) (l : List (Nat × TaskState)),
      p ∈ l → p ∈ (stepAdmit time free l).1 := by
  intro free l
  induction l generalizing free with
  | nil => intro h; simp at h
  | cons hd rest ih =>
    intro h
    obtain ⟨idx, st⟩ := hd
    rw [List.mem_cons] at h
    rcases h with h | h
    · subst h
      cases st with
      | waitingSem =>
        exact absurd (rfl : TaskState.waitingSem = TaskState.waitingSem)
          (by simpa using hp)
      | running a => cases free <;> simp [stepAdmit]
      | sleepingRL r a => cases free <;> simp [stepAdmit]
      | sleepingBackoff w a => cases free <;> simp [stepAdmit]
      | finished ok => cases free <;> simp [stepAdmit]
    · cases st with
      | waitingSem =>
        cases free with
        | zero => simpa [stepAdmit] using Or.inr (ih 0 h)
        | succ f => simpa [stepAdmit] using Or.inr (ih f h)
      | running a =>
        cases free <;> simpa [stepAdmit] using Or.inr (ih _ h)
      | sleepingRL r a =>
        cases free <;> simpa [stepAdmit] using Or.inr (ih _ h)
      | sleepingBackoff w a =>
        cases free <;> simpa [stepAdmit] using Or.inr (ih _ h)
      | finished ok =>
        cases free <;> simpa [stepAdmit] using Or.inr (ih _ h)

theorem stepAdmit_admits (time : Nat) :
    ∀ (free : Nat) (l : List (Nat × TaskState)), 0 < free →
      (∃ idx, (idx, TaskState.waitingSem) ∈ l) →
      (stepAdmit time free l).2.2 ≠ [] := by
  intro free l
  induction l generalizing free with
  | nil => intro _ hex; simp at hex
  | cons hd rest ih =>
    intro hfree hex
    obtain ⟨idx0, st0⟩ := hd
    cases st0 with
    | waitingSem =>
      match free, hfree with
      | f + 1, _ => simp [stepAdmit]
    | running a =>
      obtain ⟨idx, hidx⟩ := hex
      rw [List.mem_cons] at hidx
      rcases hidx with h | h
      · exact absurd (congrArg Prod.snd h) (by simp)
      · cases free with
        | zero => omega
        | succ f =>
          simpa [stepAdmit] using ih (f + 1) hfree ⟨idx, h⟩
    | sleepingRL r a =>
      obtain ⟨idx, hidx⟩ := hex
      rw [List.mem_cons] at hidx
      rcases hidx with h | h
      · exact absurd (congrArg Prod.snd h) (by simp)
      · cases free with
        | zero => omega
        | succ f =>
          simpa [stepAdmit] using ih (f + 1) hfree ⟨idx, h⟩
    | sleepingBackoff w a =>
      obtain ⟨idx, hidx⟩ := hex
      rw [List.mem_cons] at hidx
      rcases hidx with h | h
      · exact absurd (congrArg Prod.snd h) (by simp)
      · cases free with
        | zero => omega
        | succ f =>
          simpa [stepAdmit] using ih (f + 1) hfree ⟨idx, h⟩
    | finished ok =>
      obtain ⟨idx, hidx⟩ := hex
      rw [List.mem_cons] at hidx
      rcases hidx with h | h
      · exact absurd (congrArg Prod.snd h) (by simp)
      · cases free with
        | zero => omega
        | succ f =>
          simpa [stepAdmit] using ih (f + 1) hfree ⟨idx, h⟩

/-- C2 counterexample: three pending chunks, two permits.  Chunk 0's upload
reports a rate-limit signal with reset time 50 at tick 1, and the
scheduler nevertheless admits chunk 2 at tick 3 — after the signal and
well before the reset time — because the handler (lines 286-291) only
sleeps the observing task and nothing gates the semaphore.  This refutes
the claim that no new chunk uploads are admitted between a rate-limit
signal and its reset time. -/
theorem C2_rate_limit_admission_counterexample :
    (0, 50, 1) ∈ (runSched oracleC2 3 5 (initSched 3 2)).rlSignals
    ∧ (2, 3) ∈ (runSched oracleC2 3 5 (initSched 3 2)).admissions
    ∧ 1 ≤ 3 ∧ 3 < 50 := by
  decide

/-- C2 (amended): rate-limit handling is per-chunk, not global.  A task
sleeping on a rate-limit signal is untouched by a scheduler step before
the reset time — the observing worker alone waits, holding its permit and
making no further call for its chunk; and admission is gated only by
permit availability: whenever a permit is free and some task awaits the
semaphore, the step admits a new chunk upload, regardless of any
rate-limit sleeper in the state. -/
theorem C2_rate_limit_per_chunk :
    (∀ (oracle : Nat → Nat → StepResult) (mr : Nat) (s : SchedState)
        (idx reset a : Nat),
      (idx, TaskState.sleepingRL reset a) ∈ s.tasks → s.time < reset →
      (idx, TaskState.sleepingRL reset a) ∈ (step oracle mr s).tasks)
    ∧ (∀ (oracle : Nat → Nat → StepResult) (mr : Nat) (s : SchedState),
        0 < s.semFree → (∃ idx, (idx, TaskState.waitingSem) ∈ s.tasks) →
        s.admissions.length < (step oracle mr s).admissions.length) := by
  constructor
  · intro oracle mr s idx reset a hmem htime
    simp only [step]
    apply stepAdmit_preserves _ _ (by simp)
    rw [stepWake_fst]
    have h1 : (idx, TaskState.sleepingRL reset a) ∈
        (stepResolve oracle mr s.time s.tasks).1 := by
      rw [stepResolve_fst]
      have h0 := List.mem_map_of_mem (resolveOne oracle mr s.time) hmem
      simpa [resolveOne] using h0
    have h2 := List.mem_map_of_mem (wakeOne mr s.time) h1
    have hw : wakeOne mr s.time (idx, TaskState.sleepingRL reset a) =
        (idx, TaskState.sleepingRL reset a) := by
      simp only [wakeOne]
      rw [if_neg (by omega)]
    rw [hw] at h2
    exact h2
  · intro oracle mr s hfree hex
    obtain ⟨idx, hidx⟩ := hex
    simp only [step, List.length_append]
    have hne : (stepAdmit s.time
        (s.semFree + (stepResolve oracle mr s.time s.tasks).2.1 +
          (stepWake mr s.time (stepResolve oracle mr s.time s.tasks).1).2)
        (stepWake mr s.time (stepResolve oracle mr s.time s.tasks).1).1).2.2 ≠
          [] := by
      apply stepAdmit_admits
      · omega
      · refine ⟨idx, ?_⟩
        rw [stepWake_fst, stepResolve_fst]
        have h1 := List.mem_map_of_mem (resolveOne oracle mr s.time) hidx
        rw [show resolveOne oracle mr s.time (idx, TaskState.waitingSem) =
          (idx, TaskState.waitingSem) from rfl] at h1
        have h2 := List.mem_map_of_mem (wakeOne mr s.time) h1
        rw [show wakeOne mr s.time (idx, TaskState.waitingSem) =
          (idx, TaskState.waitingSem) from rfl] at h2
        exact h2
    have hpos := List.length_pos.mpr hne
    omega

/-- Witness for C2 (amended) at `schedW`: the sleeper persists through the
step while a new chunk is admitted in the same step. -/
theorem C2_rate_limit_per_chunk_witness :
    ((0, TaskState.sleepingRL 50 0) ∈ schedW.tasks ∧ schedW.time < 50
      ∧ (0, TaskState.sleepingRL 50 0) ∈ (step oracleC2 3 schedW).tasks)
    ∧ (0 < schedW.semFree ∧ (2, TaskState.waitingSem) ∈ schedW.tasks
      ∧ schedW.admissions.length < (step oracleC2 3 schedW).admissions.length) :=
  ⟨⟨by decide, by decide,
    C2_rate_limit_per_chunk.1 oracleC2 3 schedW 0 50 0 (by decide) (by decide)⟩,
   ⟨by decide, by decide,
    C2_rate_limit_per_chunk.2 oracleC2 3 schedW (by decide) ⟨2, by decide⟩⟩⟩

end SmartUpload

